import Mathlib

/-!
Verification of the weight-surgery and facade logic of `diffbir/model/cldm.py`.

The embedding models tensors as a shape together with flat row-major
rational data.  Each tensor also carries a `tag : Nat` standing for the
identity of the underlying storage object: `clone` produces a tensor with
the same shape and data but a fresh tag, which is how the "independent
copy, no aliasing" discipline of the checkpoint adapter is expressed in a
pure setting.  Submodules are parameter lists with a training flag and a
`trainPinned` flag; the monkey-patching of `module.train` by
`disabled_train` in the source is modelled by `trainPinned` (the explicit
state-flag reformulation the spec itself suggests).  Fallible steps of the
ControlNet bootstrap (`torch.zeros` with a negative size, tuple unpacking
of a non-4-D shape, `torch.cat` shape checks) are modelled with `Except`.
-/

set_option autoImplicit false

namespace DiffBIR

/-- A tensor: shape, flat row-major data, and a storage-identity tag. -/
structure Tensor where
  shape : List Nat
  data : List ℚ
  tag : Nat
deriving DecidableEq

/-- `t.clone()`: same shape and value, fresh storage (different tag). -/
def clone (t : Tensor) : Tensor :=
  ⟨t.shape, t.data, t.tag + 1⟩

/-- Value equality of tensors (bit-for-bit: shape and data), ignoring
storage identity. -/
def valEq (a b : Tensor) : Prop :=
  a.shape = b.shape ∧ a.data = b.data

/-- Well-formed tensor: the flat data has exactly as many entries as the
shape dictates. -/
def wf (t : Tensor) : Prop :=
  t.data.length = t.shape.prod

/-- A named parameter of a module, with its `requires_grad` flag. -/
structure Param where
  name : String
  val : Tensor
  requiresGrad : Bool
deriving DecidableEq

/-- A sub-network as seen by the facade: its parameters, its train/eval
mode, and whether its mode-switching entry point has been pinned
(`module.train = disabled_train` in the source). -/
structure SubModule where
  params : List Param
  training : Bool
  trainPinned : Bool
deriving DecidableEq

/-- A state dict: association list from dotted keys to tensors. -/
abbrev StateDict := List (String × Tensor)

/-- First-match association-list lookup (dict access). -/
def lookupKey {α : Type} : List (String × α) → String → Option α
  | [], _ => none
  | (a, b) :: rest, k => if k = a then some b else lookupKey rest k

/-- `module.state_dict()`. -/
def stateDict (m : SubModule) : StateDict :=
  m.params.map (fun p => (p.name, p.val))

/-- The declared parameter keys of a module. -/
def paramNames (m : SubModule) : List String :=
  m.params.map (fun p => p.name)

/-- Current value of a declared parameter. -/
def getParam (m : SubModule) (k : String) : Option Tensor :=
  lookupKey (stateDict m) k

/-- `module.train(mode)`: a no-op once the module has been pinned by
`disabled_train`, otherwise it sets the training flag. -/
def trainMode (m : SubModule) (mode : Bool) : SubModule :=
  if m.trainPinned then m else { m with training := mode }

/-- `module.load_state_dict(init_sd, strict=False)`: every parameter whose
name occurs in `init_sd` receives the provided value; all other
parameters keep their current value; `requires_grad` flags are untouched. -/
def updateParams (init_sd : StateDict) (ps : List Param) : List Param :=
  ps.map (fun p =>
    match lookupKey init_sd p.name with
    | some v => { p with val := v }
    | none => p)

/-- The per-module loop body of `load_pretrained_sd`: walk the module's
declared keys in order; translate each to the checkpoint namespace; a hit
contributes `sd[target_key].clone()` to `init_sd` and marks the key used,
a miss records the key as missing.  Returns `(init_sd, used, missing)`. -/
def build_init_sd (sd : StateDict) (pfx : String) : List Param → StateDict × Finset String × Finset String
  | [] => ([], ∅, ∅)
  | p :: rest =>
    let r := build_init_sd sd pfx rest
    match lookupKey sd (pfx ++ "." ++ p.name) with
    | some t => ((p.name, clone t) :: r.1, insert (pfx ++ "." ++ p.name) r.2.1, r.2.2)
    | none => (r.1, r.2.1, insert (pfx ++ "." ++ p.name) r.2.2)

/-- Freezing a submodule after the pretrained load: `module.eval()`, then
`module.train = disabled_train`, then `p.requires_grad = False` for every
parameter. -/
def freeze (m : SubModule) : SubModule :=
  { params := m.params.map (fun p => { p with requiresGrad := false }),
    training := false,
    trainPinned := true }

/-- The composite model facade (`ControlLDM.__init__`). -/
structure ControlLDM where
  unet : SubModule
  vae : SubModule
  clip : SubModule
  controlnet : SubModule
  scale_factor : ℚ
  control_scales : List ℚ
deriving DecidableEq

/-- `[1.0] * 13`, the initial control-scale vector. -/
def initial_control_scales : List ℚ :=
  List.replicate 13 1

/-- The three frozen submodule roles handled by `load_pretrained_sd`. -/
inductive Role where
  | unet
  | vae
  | clip
deriving DecidableEq

/-- The `module_map` table of checkpoint-namespace prefixes. -/
def prefixMap : Role → String
  | .unet => "model.diffusion_model"
  | .vae => "first_stage_model"
  | .clip => "cond_stage_model"

/-- The submodule a role designates on the facade. -/
def moduleOf (l : ControlLDM) : Role → SubModule
  | .unet => l.unet
  | .vae => l.vae
  | .clip => l.clip

/-- Process one submodule: build its `init_sd` and apply the non-strict
load. -/
def load_module (sd : StateDict) (pfx : String) (m : SubModule) : SubModule × Finset String × Finset String :=
  let r := build_init_sd sd pfx m.params
  ({ m with params := updateParams r.1 m.params }, r.2.1, r.2.2)

/-- All keys of a checkpoint. -/
def sdKeys (sd : StateDict) : Finset String :=
  (sd.map Prod.fst).toFinset

/-- `ControlLDM.load_pretrained_sd`: route the checkpoint into the unet,
vae and clip submodules, then freeze all three; returns the facade after
the load together with `(unused, missing)`. -/
def load_pretrained_sd (ldm : ControlLDM) (sd : StateDict) : ControlLDM × Finset String × Finset String :=
  let ru := load_module sd "model.diffusion_model" ldm.unet
  let rv := load_module sd "first_stage_model" ldm.vae
  let rc := load_module sd "cond_stage_model" ldm.clip
  let used := ru.2.1 ∪ rv.2.1 ∪ rc.2.1
  let missing := ru.2.2 ∪ rv.2.2 ∪ rc.2.2
  ({ ldm with unet := freeze ru.1, vae := freeze rv.1, clip := freeze rc.1 },
    sdKeys sd \ used, missing)

/-- The checkpoint keys marked consumed (`used`) during
`load_pretrained_sd`. -/
def consumed_keys (ldm : ControlLDM) (sd : StateDict) : Finset String :=
  (build_init_sd sd "model.diffusion_model" ldm.unet.params).2.1 ∪
  (build_init_sd sd "first_stage_model" ldm.vae.params).2.1 ∪
  (build_init_sd sd "cond_stage_model" ldm.clip.params).2.1

/-! ### ControlNet bootstrapper (`load_controlnet_from_unet`) -/

/-- Whether an `Except` computation succeeded. -/
def isOkB {α : Type} : Except String α → Bool
  | .ok _ => true
  | .error _ => false

/-- `t.size(1)`: the second shape entry; an `IndexError` on tensors of
rank below 2. -/
def size1 (t : Tensor) : Except String Nat :=
  match t.shape with
  | _ :: c :: _ => .ok c
  | _ => .error "IndexError: dimension out of range"

/-- `oc, _, h, w = t.size()`: tuple unpacking, a `ValueError` unless the
tensor is exactly 4-dimensional. -/
def unpack4 (t : Tensor) : Except String (Nat × Nat × Nat × Nat) :=
  match t.shape with
  | [a, b, c, d] => .ok (a, b, c, d)
  | _ => .error "ValueError: not enough values to unpack"

/-- `torch.zeros((oc, dic, h, w))`. -/
def zerosT (oc dic h w : Nat) : Tensor :=
  ⟨[oc, dic, h, w], List.replicate (oc * (dic * (h * w))) 0, 0⟩

/-- The `o`-th consecutive chunk of size `csz` of a flat data list. -/
def chunk (d : List ℚ) (csz o : Nat) : List ℚ :=
  (d.drop (o * csz)).take csz

/-- `torch.cat((a, b), dim=1)` at the rank-4 instances used by the
bootstrapper: succeeds when both inputs are 4-D and agree in every
dimension except dimension 1; interleaves the per-dimension-0 chunks of
the two flat data lists. -/
def cat_dim1 (a b : Tensor) : Except String Tensor :=
  match a.shape, b.shape with
  | [oa, ca, ha, wa], [ob, cb, hb, wb] =>
    if oa = ob ∧ ha = hb ∧ wa = wb then
      .ok ⟨[oa, ca + cb, ha, wa],
        (List.range oa).flatMap
          (fun o => chunk a.data (ca * (ha * wa)) o ++ chunk b.data (cb * (hb * wb)) o),
        0⟩
    else .error "RuntimeError: cat sizes do not match"
  | _, _ => .error "RuntimeError: cat expects tensors of equal rank"

/-- The shape-mismatch arm of the bootstrapper loop (cldm.py lines
80-85): `d_ic = this.size(1) - target.size(1)` (a Python `int`, possibly
negative); `oc, _, h, w = this.size()`; `torch.zeros((oc, d_ic, h, w))`
fails on a negative `d_ic`; finally `torch.cat((target, zeros), dim=1)`. -/
def pad_channels (thisT target : Tensor) : Except String Tensor :=
  match size1 thisT with
  | .error e => .error e
  | .ok ci =>
    match size1 target with
    | .error e => .error e
    | .ok ct =>
      match unpack4 thisT with
      | .error e => .error e
      | .ok q =>
        if (ci : Int) - (ct : Int) < 0 then
          .error "RuntimeError: zeros with negative dimension"
        else cat_dim1 target (zerosT q.1 (((ci : Int) - (ct : Int)).toNat) q.2.2.1 q.2.2.2)

/-- A declared control-branch key is resolvable by one of the three rules:
the key is absent from the denoiser (fresh value), or present with an
identical shape (direct copy), or present with a shape the zero-padding
arm accepts. -/
def resolvable (u : StateDict) (k : String) (t : Tensor) : Prop :=
  ∀ tg, lookupKey u k = some tg → (t.shape = tg.shape ∨ isOkB (pad_channels t tg) = true)

/-- One iteration of the `load_controlnet_from_unet` loop body: the value
assigned to a declared control-branch key, plus whether the key belongs
in `init_with_new_zero` and in `init_with_scratch` respectively. -/
def resolve_key (u : StateDict) (key : String) (sc : Tensor) : Except String (Tensor × Bool × Bool) :=
  match lookupKey u key with
  | some tg =>
    if sc.shape = tg.shape then .ok (clone tg, false, false)
    else
      match pad_channels sc tg with
      | .error e => .error e
      | .ok v => .ok (v, true, false)
  | none => .ok (clone sc, false, true)

/-- The loop of `load_controlnet_from_unet`: fold over the control
branch's declared entries, producing `init_sd` together with
`(init_with_new_zero, init_with_scratch)`; the first unresolvable key
aborts the whole computation. -/
def build_control_init (u : StateDict) : List (String × Tensor) → Except String (StateDict × Finset String × Finset String)
  | [] => .ok ([], ∅, ∅)
  | (key, sc) :: rest =>
    match resolve_key u key sc with
    | .error e => .error e
    | .ok w =>
      match build_control_init u rest with
      | .error e => .error e
      | .ok r =>
        .ok ((key, w.1) :: r.1,
          (if w.2.1 then insert key r.2.1 else r.2.1),
          (if w.2.2 then insert key r.2.2 else r.2.2))

/-- `ControlLDM.load_controlnet_from_unet`: build the full `init_sd` from
the denoiser's state, then install it into the control branch in a single
strict load (by construction `init_sd` covers exactly the declared keys,
and every produced tensor has the declared shape, so the strict load
succeeds); on any failure no state is produced and the facade is left
untouched. -/
def load_controlnet_from_unet (ldm : ControlLDM) : Except String (ControlLDM × Finset String × Finset String) :=
  match build_control_init (stateDict ldm.unet) (stateDict ldm.controlnet) with
  | .error e => .error e
  | .ok r =>
    .ok ({ ldm with controlnet := { ldm.controlnet with params := updateParams r.1 ldm.controlnet.params } },
      r.2.1, r.2.2)

/-- The input-channel slice `[lo, lo+n)` of a 4-D tensor, as a flat list:
for each dimension-0 index, the segment of the per-index chunk covering
channels `lo` to `lo+n`. -/
def channel_slice (t : Tensor) (lo n : Nat) : List ℚ :=
  match t.shape with
  | [oc, ic, h, w] =>
    (List.range oc).flatMap
      (fun o => ((chunk t.data (ic * (h * w)) o).drop (lo * (h * w))).take (n * (h * w)))
  | _ => []

/-- The shape-delta precondition of the zero-padding arm: both tensors
4-D, all dimensions but dimension 1 equal, and the control branch's
channel count strictly larger. -/
def pad_precondition (thisT target : Tensor) : Prop :=
  ∃ oc ci ct h w, thisT.shape = [oc, ci, h, w] ∧ target.shape = [oc, ct, h, w] ∧ ct < ci

/-! ### Helper lemmas: flat chunks -/

lemma length_chunk (d : List ℚ) (csz o : Nat) (h : (o + 1) * csz ≤ d.length) :
    (chunk d csz o).length = csz := by
  rw [Nat.succ_mul] at h
  simp only [chunk, List.length_take, List.length_drop]
  omega

lemma length_flatMap_range (f : Nat → List ℚ) (k n : Nat)
    (h : ∀ i, i < n → (f i).length = k) :
    ((List.range n).flatMap f).length = n * k := by
  induction n with
  | zero => simp
  | succ n ih =>
    have hlast : ([n].flatMap f).length = k := by
      simp [h n (Nat.lt_succ_self n)]
    rw [List.range_succ, List.flatMap_append, List.length_append,
      ih (fun i hi => h i (Nat.lt_succ_of_lt hi)), hlast, Nat.succ_mul]

lemma chunk_flatMap_range (f : Nat → List ℚ) (k n o : Nat)
    (h : ∀ i, i < n → (f i).length = k) (ho : o < n) :
    chunk ((List.range n).flatMap f) k o = f o := by
  induction n with
  | zero => omega
  | succ n ih =>
    have hlen : ((List.range n).flatMap f).length = n * k :=
      length_flatMap_range f k n (fun i hi => h i (Nat.lt_succ_of_lt hi))
    rw [List.range_succ, List.flatMap_append]
    by_cases hon : o < n
    · have h1 : o * k ≤ ((List.range n).flatMap f).length := by
        rw [hlen]; exact Nat.mul_le_mul_right k (Nat.le_of_lt hon)
      have h2 : k ≤ (((List.range n).flatMap f).drop (o * k)).length := by
        rw [List.length_drop, hlen]
        have : (o + 1) * k ≤ n * k := Nat.mul_le_mul_right k hon
        rw [Nat.succ_mul] at this
        omega
      unfold chunk
      rw [List.drop_append_of_le_length h1, List.take_append_of_le_length h2]
      exact ih (fun i hi => h i (Nat.lt_succ_of_lt hi)) hon
    · have hoe : o = n := by omega
      subst hoe
      unfold chunk
      rw [List.drop_left' hlen]
      have : ([o].flatMap f) = f o := by simp
      rw [this, List.take_of_length_le (by rw [h o (Nat.lt_succ_self o)])]

lemma flatMap_range_chunk (d : List ℚ) (k n : Nat) (h : d.length = n * k) :
    (List.range n).flatMap (fun o => chunk d k o) = d := by
  have main : ∀ m : Nat, m ≤ n → (List.range m).flatMap (fun o => chunk d k o) = d.take (m * k) := by
    intro m hm
    induction m with
    | zero => simp
    | succ m ih =>
      rw [List.range_succ, List.flatMap_append, ih (Nat.le_of_lt (Nat.lt_of_lt_of_le (Nat.lt_succ_self m) hm))]
      have : ([m].flatMap fun o => chunk d k o) = chunk d k m := by simp
      rw [this, Nat.succ_mul, List.take_add]
      rfl
  rw [main n (Nat.le_refl n)]
  exact List.take_of_length_le (by omega)

/-! ### Helper lemmas: association-list lookups -/

lemma lookupKey_some_mem {α : Type} (l : List (String × α)) (k : String) (v : α)
    (h : lookupKey l k = some v) : k ∈ l.map Prod.fst := by
  induction l with
  | nil => simp [lookupKey] at h
  | cons a rest ih =>
    obtain ⟨n, b⟩ := a
    by_cases hk : k = n
    · simp [hk]
    · simp only [lookupKey, if_neg hk] at h
      simp [ih h]

lemma lookup_map_isSome (ps : List Param) (k : String)
    (h : k ∈ ps.map (fun p => p.name)) :
    ∃ v, lookupKey (ps.map (fun p => (p.name, p.val))) k = some v := by
  induction ps with
  | nil => simp at h
  | cons p rest ih =>
    by_cases hk : k = p.name
    · exact ⟨p.val, by simp [lookupKey, hk]⟩
    · simp only [List.map_cons, List.mem_cons] at h
      rcases h with h | h
      · exact absurd h hk
      · obtain ⟨v, hv⟩ := ih h
        exact ⟨v, by simp [lookupKey, if_neg hk, hv]⟩

/-- What the non-strict load leaves at each key: parameters named in the
provided dict take the provided value, everything else is untouched. -/
lemma lookup_updateParams (i : StateDict) (ps : List Param) (k : String) :
    lookupKey ((updateParams i ps).map (fun p => (p.name, p.val))) k =
      match lookupKey (ps.map (fun p => (p.name, p.val))) k with
      | none => none
      | some old => some ((lookupKey i k).getD old) := by
  induction ps with
  | nil => simp [updateParams, lookupKey]
  | cons p rest ih =>
    by_cases hk : k = p.name
    · cases hi : lookupKey i p.name <;>
        simp [updateParams, lookupKey, hk, hi, Option.getD]
    · cases hir : lookupKey i p.name <;>
        simpa [updateParams, lookupKey, if_neg hk, hir] using ih

lemma getParam_freeze (m : SubModule) (k : String) :
    getParam (freeze m) k = getParam m k := by
  unfold getParam stateDict freeze
  induction m.params with
  | nil => rfl
  | cons p rest ih =>
    by_cases hk : k = p.name
    · simp [lookupKey, hk]
    · simp only [List.map_cons, lookupKey, if_neg hk]
      simpa using ih

/-! ### Helper lemmas: `build_init_sd` -/

lemma lookup_build_init_sd (sd : StateDict) (pfx : String) (ps : List Param) (k : String) :
    lookupKey (build_init_sd sd pfx ps).1 k =
      if k ∈ ps.map (fun p => p.name) then (lookupKey sd (pfx ++ "." ++ k)).map clone
      else none := by
  induction ps with
  | nil => simp [build_init_sd, lookupKey]
  | cons p rest ih =>
    by_cases hk : k = p.name
    · subst hk
      cases ht : lookupKey sd (pfx ++ "." ++ p.name) <;>
        simp [build_init_sd, lookupKey, ht, ih]
    · cases ht : lookupKey sd (pfx ++ "." ++ p.name) <;>
        simp [build_init_sd, lookupKey, ht, ih, hk]

lemma mem_missing_build_init_sd (sd : StateDict) (pfx : String) (ps : List Param) (k : String)
    (hk : k ∈ ps.map (fun p => p.name))
    (hnone : lookupKey sd (pfx ++ "." ++ k) = none) :
    (pfx ++ "." ++ k) ∈ (build_init_sd sd pfx ps).2.2 := by
  induction ps with
  | nil => simp at hk
  | cons p rest ih =>
    simp only [List.map_cons, List.mem_cons] at hk
    rcases hk with hk | hk
    · subst hk
      simp [build_init_sd, hnone]
    · cases ht : lookupKey sd (pfx ++ "." ++ p.name) <;>
        simp [build_init_sd, ht, ih hk]

lemma used_build_init_sd_subset (sd : StateDict) (pfx : String) (ps : List Param) :
    (build_init_sd sd pfx ps).2.1 ⊆ sdKeys sd := by
  induction ps with
  | nil => simp [build_init_sd]
  | cons p rest ih =>
    cases ht : lookupKey sd (pfx ++ "." ++ p.name) with
    | none => simpa [build_init_sd, ht] using ih
    | some t =>
      intro x hx
      simp only [build_init_sd, ht, Finset.mem_insert] at hx
      rcases hx with hx | hx
      · subst hx
        exact List.mem_toFinset.2 (lookupKey_some_mem sd _ t ht)
      · exact ih hx

/-- Unfolding `load_pretrained_sd` at a role. -/
lemma load_pretrained_sd_module (ldm : ControlLDM) (sd : StateDict) (r : Role) :
    moduleOf (load_pretrained_sd ldm sd).1 r =
      freeze (load_module sd (prefixMap r) (moduleOf ldm r)).1 := by
  cases r <;> rfl

lemma load_pretrained_sd_missing (ldm : ControlLDM) (sd : StateDict) (r : Role) :
    (build_init_sd sd (prefixMap r) (moduleOf ldm r).params).2.2 ⊆
      (load_pretrained_sd ldm sd).2.2 := by
  cases r <;>
    · intro x hx
      simp only [load_pretrained_sd, load_module, prefixMap, moduleOf, Finset.mem_union] at hx ⊢
      tauto

/-- The value a processed submodule holds at a declared key whose
checkpoint translation hits: the cloned checkpoint tensor. -/
lemma getParam_load_module_hit (sd : StateDict) (pfx : String) (m : SubModule) (k : String) (t : Tensor)
    (hk : k ∈ paramNames m)
    (ht : lookupKey sd (pfx ++ "." ++ k) = some t) :
    getParam (load_module sd pfx m).1 k = some (clone t) := by
  obtain ⟨old, hold⟩ := lookup_map_isSome m.params k hk
  have hk' : k ∈ m.params.map (fun p => p.name) := hk
  have h2 := lookup_build_init_sd sd pfx m.params k
  rw [if_pos hk', ht] at h2
  show lookupKey ((updateParams (build_init_sd sd pfx m.params).1 m.params).map (fun p => (p.name, p.val))) k = some (clone t)
  rw [lookup_updateParams, hold, h2]
  rfl

/-- The value a processed submodule holds at a declared key whose
checkpoint translation misses: the pre-load value. -/
lemma getParam_load_module_miss (sd : StateDict) (pfx : String) (m : SubModule) (k : String)
    (ht : lookupKey sd (pfx ++ "." ++ k) = none) :
    getParam (load_module sd pfx m).1 k = getParam m k := by
  have h2 := lookup_build_init_sd sd pfx m.params k
  rw [ht] at h2
  have h2' : lookupKey (build_init_sd sd pfx m.params).1 k = none := by
    rw [h2]; split <;> rfl
  show lookupKey ((updateParams (build_init_sd sd pfx m.params).1 m.params).map (fun p => (p.name, p.val))) k = getParam m k
  rw [lookup_updateParams, h2']
  cases hold : lookupKey (m.params.map (fun p => (p.name, p.val))) k <;>
    simp [getParam, stateDict, hold]

/-! ### Claim theorems: checkpoint adapter -/

/-- **C2.** In `load_pretrained_sd`, every submodule-declared parameter
key whose prefixed checkpoint key is present in the checkpoint ends up,
after the load, holding exactly the checkpoint's tensor value (same shape
and data) in an independent copy (a different storage tag, so no aliasing
with the checkpoint's tensor). -/
theorem load_pretrained_sd_copies_present_keys (ldm : ControlLDM) (sd : StateDict) (r : Role) (k : String) (t : Tensor)
    (hk : k ∈ paramNames (moduleOf ldm r))
    (ht : lookupKey sd (prefixMap r ++ "." ++ k) = some t) :
    ∃ v, getParam (moduleOf (load_pretrained_sd ldm sd).1 r) k = some v ∧
      v.shape = t.shape ∧ v.data = t.data ∧ v.tag ≠ t.tag := by
  rw [load_pretrained_sd_module, getParam_freeze,
    getParam_load_module_hit sd (prefixMap r) (moduleOf ldm r) k t hk ht]
  exact ⟨clone t, rfl, rfl, rfl, Nat.succ_ne_self t.tag⟩

/-- **C3.** The returned `unused_keys` and the set of consumed checkpoint
keys are disjoint and together are exactly the checkpoint's key set. -/
theorem load_pretrained_sd_key_partition (ldm : ControlLDM) (sd : StateDict) :
    Disjoint (load_pretrained_sd ldm sd).2.1 (consumed_keys ldm sd) ∧
    (load_pretrained_sd ldm sd).2.1 ∪ consumed_keys ldm sd = sdKeys sd := by
  have hsub : consumed_keys ldm sd ⊆ sdKeys sd := by
    unfold consumed_keys
    refine Finset.union_subset (Finset.union_subset ?_ ?_) ?_ <;>
      apply used_build_init_sd_subset
  have hunused : (load_pretrained_sd ldm sd).2.1 = sdKeys sd \ consumed_keys ldm sd := rfl
  exact ⟨hunused ▸ Finset.sdiff_disjoint, hunused ▸ Finset.sdiff_union_of_subset hsub⟩

/-- **C5.** After `load_pretrained_sd`, every parameter of the unet, vae
and clip submodules has `requires_grad = false`, the module is in
evaluation mode, and its mode-switching entry point is pinned: any later
`train(mode)` call — in particular `train(true)` — is a no-op whose
result is still in evaluation mode. -/
theorem load_pretrained_sd_freezes (ldm : ControlLDM) (sd : StateDict) (r : Role) :
    (∀ p ∈ (moduleOf (load_pretrained_sd ldm sd).1 r).params, p.requiresGrad = false) ∧
    (moduleOf (load_pretrained_sd ldm sd).1 r).training = false ∧
    (∀ mode, trainMode (moduleOf (load_pretrained_sd ldm sd).1 r) mode =
      moduleOf (load_pretrained_sd ldm sd).1 r) ∧
    (trainMode (moduleOf (load_pretrained_sd ldm sd).1 r) true).training = false := by
  rw [load_pretrained_sd_module]
  refine ⟨?_, rfl, fun mode => rfl, rfl⟩
  intro p hp
  simp only [freeze, List.mem_map] at hp
  obtain ⟨q, _, hq⟩ := hp
  rw [← hq]

/-- **C6.** A declared key whose prefixed checkpoint key is absent is
recorded in the returned `missing_keys`, the parameter keeps its pre-load
value, and the load goes on (the function is total, so the partial load
is non-fatal). -/
theorem load_pretrained_sd_missing_keys (ldm : ControlLDM) (sd : StateDict) (r : Role) (k : String)
    (hk : k ∈ paramNames (moduleOf ldm r))
    (hnone : lookupKey sd (prefixMap r ++ "." ++ k) = none) :
    (prefixMap r ++ "." ++ k) ∈ (load_pretrained_sd ldm sd).2.2 ∧
    getParam (moduleOf (load_pretrained_sd ldm sd).1 r) k = getParam (moduleOf ldm r) k := by
  constructor
  · exact load_pretrained_sd_missing ldm sd r
      (mem_missing_build_init_sd sd (prefixMap r) (moduleOf ldm r).params k hk hnone)
  · rw [load_pretrained_sd_module, getParam_freeze,
      getParam_load_module_miss sd (prefixMap r) (moduleOf ldm r) k hnone]

/-! ### Concrete witness data -/

/-- A small concrete facade used by the witnesses. -/
def ldmW : ControlLDM :=
  { unet := { params := [⟨"w", ⟨[2], [1, 2], 5⟩, true⟩], training := true, trainPinned := false },
    vae := { params := [⟨"v", ⟨[1], [3], 6⟩, true⟩], training := true, trainPinned := false },
    clip := { params := [⟨"c", ⟨[1], [4], 7⟩, true⟩], training := true, trainPinned := false },
    controlnet := { params := [⟨"w", ⟨[2], [0, 0], 8⟩, true⟩], training := true, trainPinned := false },
    scale_factor := 1,
    control_scales := initial_control_scales }

/-- A small concrete checkpoint used by the witnesses: it hits the unet's
`w` and misses the vae's `v` and the clip's `c`. -/
def sdW : StateDict :=
  [("model.diffusion_model.w", ⟨[2], [9, 8], 3⟩), ("stray", ⟨[1], [7], 4⟩)]

/-- Witness for C2 at a concrete checkpoint. -/
theorem load_pretrained_sd_copies_present_keys_witness :
    ∃ v, getParam (moduleOf (load_pretrained_sd ldmW sdW).1 Role.unet) "w" = some v ∧
      v.shape = (⟨[2], [9, 8], 3⟩ : Tensor).shape ∧
      v.data = (⟨[2], [9, 8], 3⟩ : Tensor).data ∧
      v.tag ≠ (⟨[2], [9, 8], 3⟩ : Tensor).tag :=
  load_pretrained_sd_copies_present_keys ldmW sdW Role.unet "w" ⟨[2], [9, 8], 3⟩
    (by decide) (by decide)

/-- Witness for C5 at a concrete facade: after the load, switching the
vae to training mode leaves it in evaluation mode. -/
theorem load_pretrained_sd_freezes_witness :
    (trainMode (moduleOf (load_pretrained_sd ldmW sdW).1 Role.vae) true).training = false :=
  (load_pretrained_sd_freezes ldmW sdW Role.vae).2.2.2

/-- Witness for C6 at a concrete checkpoint missing the vae's key. -/
theorem load_pretrained_sd_missing_keys_witness :
    ("first_stage_model" ++ "." ++ "v") ∈ (load_pretrained_sd ldmW sdW).2.2 ∧
    getParam (moduleOf (load_pretrained_sd ldmW sdW).1 Role.vae) "v" =
      getParam (moduleOf ldmW Role.vae) "v" :=
  load_pretrained_sd_missing_keys ldmW sdW Role.vae "v" (by decide) (by decide)

/-! ### Helper lemmas: the zero-padding arm -/

lemma size1_ok_shape (t : Tensor) (c : Nat) (h : size1 t = .ok c) :
    ∃ a rest, t.shape = a :: c :: rest := by
  unfold size1 at h
  split at h
  · rename_i a c0 rest heq
    cases h
    exact ⟨a, rest, heq⟩
  · cases h

lemma unpack4_ok_shape (t : Tensor) (q : Nat × Nat × Nat × Nat) (h : unpack4 t = .ok q) :
    t.shape = [q.1, q.2.1, q.2.2.1, q.2.2.2] := by
  unfold unpack4 at h
  split at h
  · rename_i a b c d heq
    cases h
    exact heq
  · cases h

/-- The zero-padding arm at shapes satisfying its implicit precondition:
the explicit result tensor. -/
lemma pad_channels_ok (oc ci ct h w : Nat) (thisT target : Tensor)
    (hts : thisT.shape = [oc, ci, h, w]) (htg : target.shape = [oc, ct, h, w]) (hle : ct ≤ ci) :
    pad_channels thisT target =
      .ok ⟨[oc, ct + (ci - ct), h, w],
        (List.range oc).flatMap
          (fun o => chunk target.data (ct * (h * w)) o ++
            chunk (List.replicate (oc * ((ci - ct) * (h * w))) 0) ((ci - ct) * (h * w)) o), 0⟩ := by
  have hnneg : ¬((ci : Int) - (ct : Int) < 0) := by omega
  have htn : ((ci : Int) - (ct : Int)).toNat = ci - ct := by omega
  simp only [pad_channels, size1, unpack4, hts, htg]
  rw [if_neg hnneg, htn]
  simp [cat_dim1, zerosT, htg]

/-- Success characterization of the zero-padding arm: both tensors 4-D,
all dimensions equal except dimension 1, and the denoiser's channel
count at most the control branch's. -/
lemma pad_channels_isOk (thisT target : Tensor) :
    isOkB (pad_channels thisT target) = true ↔
      ∃ oc ci ct h w, thisT.shape = [oc, ci, h, w] ∧ target.shape = [oc, ct, h, w] ∧ ct ≤ ci := by
  constructor
  · intro hok
    unfold pad_channels at hok
    split at hok
    · simp [isOkB] at hok
    · rename_i ci hci
      split at hok
      · simp [isOkB] at hok
      · rename_i ct hct
        split at hok
        · simp [isOkB] at hok
        · rename_i q hq
          split at hok
          · simp [isOkB] at hok
          · rename_i hnneg
            have hts := unpack4_ok_shape thisT q hq
            have hci' : ci = q.2.1 := by
              unfold size1 at hci
              rw [hts] at hci
              cases hci
              rfl
            obtain ⟨a0, r0, htg0⟩ := size1_ok_shape target ct hct
            unfold cat_dim1 at hok
            split at hok
            · rename_i oa ca ha wa ob cb hb wb htga hz
              split at hok
              · rename_i hcond
                obtain ⟨hoa, hha, hwa⟩ := hcond
                have hz' : q.1 = ob ∧ (((ci : Int) - (ct : Int)).toNat = cb ∧ q.2.2.1 = hb ∧ q.2.2.2 = wb) := by
                  simpa [zerosT] using hz
                have hct' : ca = ct := by
                  rw [htga] at htg0
                  cases htg0
                  rfl
                refine ⟨q.1, ci, ct, q.2.2.1, q.2.2.2, ?_, ?_, ?_⟩
                · rw [hts, hci']
                · rw [htga, hct', hoa, hha, hwa, hz'.1, hz'.2.2.1, hz'.2.2.2]
                · omega
              · simp [isOkB] at hok
            · simp [isOkB] at hok
  · rintro ⟨oc, ci, ct, h, w, hts, htg, hle⟩
    rw [pad_channels_ok oc ci ct h w thisT target hts htg hle]
    rfl

/-! ### Helper lemmas: `resolve_key` and `build_control_init` -/

lemma resolve_key_fresh (u : StateDict) (key : String) (sc : Tensor)
    (hu : lookupKey u key = none) :
    resolve_key u key sc = .ok (clone sc, false, true) := by
  simp [resolve_key, hu]

lemma resolve_key_same (u : StateDict) (key : String) (sc tg : Tensor)
    (hu : lookupKey u key = some tg) (hsh : sc.shape = tg.shape) :
    resolve_key u key sc = .ok (clone tg, false, false) := by
  simp [resolve_key, hu, hsh]

lemma resolve_key_pad (u : StateDict) (key : String) (sc tg v : Tensor)
    (hu : lookupKey u key = some tg) (hne : ¬sc.shape = tg.shape)
    (hv : pad_channels sc tg = .ok v) :
    resolve_key u key sc = .ok (v, true, false) := by
  simp [resolve_key, hu, hne, hv]

lemma resolve_key_isOk (u : StateDict) (key : String) (sc : Tensor) :
    isOkB (resolve_key u key sc) = true ↔ resolvable u key sc := by
  unfold resolve_key resolvable
  cases hu : lookupKey u key with
  | none => simp [isOkB]
  | some tg =>
    by_cases hsh : sc.shape = tg.shape
    · simp [hsh, isOkB]
    · cases hv : pad_channels sc tg with
      | ok v => simp [hsh, hv, isOkB]
      | error e => simp [hsh, hv, isOkB]

lemma build_control_init_ok_of_resolvable (u : StateDict) :
    ∀ l : List (String × Tensor), (∀ kt ∈ l, resolvable u kt.1 kt.2) →
      ∃ r, build_control_init u l = .ok r := by
  intro l
  induction l with
  | nil => exact fun _ => ⟨([], ∅, ∅), rfl⟩
  | cons p rest ih =>
    intro H
    obtain ⟨key, sc⟩ := p
    have h1 : isOkB (resolve_key u key sc) = true :=
      (resolve_key_isOk u key sc).mpr (H (key, sc) (List.mem_cons_self _ _))
    obtain ⟨r, hr⟩ := ih (fun kt hm => H kt (List.mem_cons_of_mem _ hm))
    cases hw : resolve_key u key sc with
    | error e => rw [hw] at h1; simp [isOkB] at h1
    | ok w =>
      refine ⟨((key, w.1) :: r.1, (if w.2.1 then insert key r.2.1 else r.2.1),
        (if w.2.2 then insert key r.2.2 else r.2.2)), ?_⟩
      simp only [build_control_init, hw, hr]

lemma build_control_init_resolvable_of_ok (u : StateDict) :
    ∀ (l : List (String × Tensor)) (r : StateDict × Finset String × Finset String),
      build_control_init u l = .ok r → ∀ kt ∈ l, resolvable u kt.1 kt.2 := by
  intro l
  induction l with
  | nil => intro r _ kt hm; simp at hm
  | cons p rest ih =>
    intro r hok kt hm
    obtain ⟨key, sc⟩ := p
    unfold build_control_init at hok
    split at hok
    · cases hok
    · rename_i w hw
      split at hok
      · cases hok
      · rename_i r0 hr0
        rcases List.mem_cons.mp hm with hh | ht
        · subst hh
          exact (resolve_key_isOk u key sc).mp (by rw [hw]; rfl)
        · exact ih r0 hr0 kt ht

lemma build_control_init_keys (u : StateDict) :
    ∀ (l : List (String × Tensor)) (r : StateDict × Finset String × Finset String),
      build_control_init u l = .ok r →
      ∀ k ∈ l.map Prod.fst, ∃ v, lookupKey r.1 k = some v := by
  intro l
  induction l with
  | nil => intro r _ k hm; simp at hm
  | cons p rest ih =>
    intro r hok k hm
    obtain ⟨key, sc⟩ := p
    unfold build_control_init at hok
    split at hok
    · cases hok
    · rename_i w hw
      split at hok
      · cases hok
      · rename_i r0 hr0
        injection hok with h
        subst h
        by_cases hk : k = key
        · exact ⟨w.1, by simp [lookupKey, hk]⟩
        · simp only [List.map_cons, List.mem_cons] at hm
          rcases hm with hm | hm
          · exact absurd hm hk
          · obtain ⟨v, hv⟩ := ih r0 hr0 k hm
            exact ⟨v, by simp [lookupKey, hk, hv]⟩

lemma build_control_init_pad_lookup (u : StateDict) (k : String) (sc tg : Tensor)
    (hu : lookupKey u k = some tg) (hne : sc.shape ≠ tg.shape) :
    ∀ (l : List (String × Tensor)) (r : StateDict × Finset String × Finset String),
      build_control_init u l = .ok r → (l.map Prod.fst).Nodup → (k, sc) ∈ l →
      ∃ v, pad_channels sc tg = .ok v ∧ lookupKey r.1 k = some v ∧ k ∈ r.2.1 := by
  intro l
  induction l with
  | nil => intro r _ _ hm; simp at hm
  | cons p rest ih =>
    intro r hok hnd hm
    obtain ⟨key, sc0⟩ := p
    unfold build_control_init at hok
    split at hok
    · cases hok
    · rename_i w hw
      split at hok
      · cases hok
      · rename_i r0 hr0
        injection hok with h
        subst h
        rcases List.mem_cons.mp hm with hh | ht
        · injection hh with h1 h2
          subst h1
          subst h2
          cases hv : pad_channels sc tg with
          | error e =>
            have hcontra : resolve_key u k sc = .error e := by
              simp [resolve_key, hu, hne, hv]
            rw [hcontra] at hw
            cases hw
          | ok v =>
            have hrk : resolve_key u k sc = .ok (v, true, false) := by
              simp [resolve_key, hu, hne, hv]
            rw [hrk] at hw
            injection hw with h3
            subst h3
            refine ⟨v, rfl, by simp [lookupKey], by simp⟩
        · have hkne : k ≠ key := by
            intro hkk
            subst hkk
            have h1 : k ∈ rest.map Prod.fst := List.mem_map_of_mem Prod.fst ht
            have h2 : k ∉ rest.map Prod.fst := by
              have := hnd
              simp only [List.map_cons, List.nodup_cons] at this
              exact this.1
            exact h2 h1
          have hnd' : (rest.map Prod.fst).Nodup := by
            simp only [List.map_cons, List.nodup_cons] at hnd
            exact hnd.2
          obtain ⟨v, hv, hl, hz⟩ := ih r0 hr0 hnd' ht
          refine ⟨v, hv, by simp [lookupKey, hkne, hl], ?_⟩
          by_cases hb : w.2.1 <;> simp [hb, hz]

lemma build_control_init_all_same (u : StateDict) :
    ∀ l : List (String × Tensor),
      (∀ kt ∈ l, ∃ tg, lookupKey u kt.1 = some tg ∧ kt.2.shape = tg.shape) →
      ∃ i, build_control_init u l = .ok (i, ∅, ∅) ∧
        ∀ kt ∈ l, lookupKey i kt.1 = (lookupKey u kt.1).map clone := by
  intro l
  induction l with
  | nil => exact fun _ => ⟨[], rfl, by simp⟩
  | cons p rest ih =>
    intro H
    obtain ⟨key, sc⟩ := p
    obtain ⟨tg, hu, hsh⟩ := H (key, sc) (List.mem_cons_self _ _)
    obtain ⟨i, hb, hv⟩ := ih (fun kt hm => H kt (List.mem_cons_of_mem _ hm))
    refine ⟨(key, clone tg) :: i, ?_, ?_⟩
    · simp only [build_control_init, resolve_key_same u key sc tg hu hsh, hb]
      rfl
    · intro kt hm
      rcases List.mem_cons.mp hm with hh | ht
      · subst hh
        simp [lookupKey, hu]
      · by_cases hkk : kt.1 = key
        · simp [lookupKey, hkk, hu]
        · simp [lookupKey, hkk, hv kt ht]

lemma stateDict_fst (m : SubModule) : (stateDict m).map Prod.fst = paramNames m := by
  simp [stateDict, paramNames]

/-- Per-chunk length of the concatenated data produced by the padding
arm. -/
lemma pad_piece_length (oc ci ct h w : Nat) (td : List ℚ)
    (hlen : td.length = oc * (ct * (h * w))) :
    ∀ o, o < oc →
      (chunk td (ct * (h * w)) o ++
        chunk (List.replicate (oc * ((ci - ct) * (h * w))) (0 : ℚ)) ((ci - ct) * (h * w)) o).length =
      (ct + (ci - ct)) * (h * w) := by
  intro o ho
  rw [List.length_append,
    length_chunk td _ o (by rw [hlen]; exact Nat.mul_le_mul_right _ ho),
    length_chunk _ _ o (by rw [List.length_replicate]; exact Nat.mul_le_mul_right _ ho),
    ← Nat.add_mul]

/-- `channel_slice` at an explicitly 4-D tensor. -/
lemma channel_slice_mk (oc ic h w : Nat) (d : List ℚ) (tg0 lo n : Nat) :
    channel_slice ⟨[oc, ic, h, w], d, tg0⟩ lo n =
      (List.range oc).flatMap
        (fun o => ((chunk d (ic * (h * w)) o).drop (lo * (h * w))).take (n * (h * w))) := rfl

/-- The first `ct` channels of the padded tensor are exactly the
denoiser's data. -/
lemma channel_slice_pad_left (oc ci ct h w : Nat) (td : List ℚ)
    (hlen : td.length = oc * (ct * (h * w))) :
    channel_slice ⟨[oc, ct + (ci - ct), h, w],
      (List.range oc).flatMap (fun o => chunk td (ct * (h * w)) o ++
        chunk (List.replicate (oc * ((ci - ct) * (h * w))) 0) ((ci - ct) * (h * w)) o), 0⟩ 0 ct = td := by
  rw [channel_slice_mk]
  have hstep : ∀ o ∈ List.range oc,
      ((chunk ((List.range oc).flatMap (fun o => chunk td (ct * (h * w)) o ++
          chunk (List.replicate (oc * ((ci - ct) * (h * w))) 0) ((ci - ct) * (h * w)) o))
        ((ct + (ci - ct)) * (h * w)) o).drop (0 * (h * w))).take (ct * (h * w)) =
        chunk td (ct * (h * w)) o := by
    intro o hmo
    have ho := List.mem_range.mp hmo
    rw [chunk_flatMap_range _ _ oc o (pad_piece_length oc ci ct h w td hlen) ho,
      Nat.zero_mul, List.drop_zero]
    exact List.take_left'
      (length_chunk td _ o (by rw [hlen]; exact Nat.mul_le_mul_right _ ho))
  rw [List.flatMap_congr hstep]
  exact flatMap_range_chunk td (ct * (h * w)) oc hlen

/-- The channels beyond `ct` of the padded tensor are all zero. -/
lemma channel_slice_pad_right (oc ci ct h w : Nat) (td : List ℚ)
    (hlen : td.length = oc * (ct * (h * w))) :
    ∀ q ∈ channel_slice ⟨[oc, ct + (ci - ct), h, w],
      (List.range oc).flatMap (fun o => chunk td (ct * (h * w)) o ++
        chunk (List.replicate (oc * ((ci - ct) * (h * w))) 0) ((ci - ct) * (h * w)) o), 0⟩
      ct (ci - ct), q = 0 := by
  intro q hq
  rw [channel_slice_mk] at hq
  obtain ⟨o, hmo, hqo⟩ := List.mem_flatMap.mp hq
  have ho := List.mem_range.mp hmo
  rw [chunk_flatMap_range _ _ oc o (pad_piece_length oc ci ct h w td hlen) ho,
    List.drop_left'
      (length_chunk td _ o (by rw [hlen]; exact Nat.mul_le_mul_right _ ho))] at hqo
  have h1 : q ∈ chunk (List.replicate (oc * ((ci - ct) * (h * w))) (0 : ℚ)) ((ci - ct) * (h * w)) o :=
    List.mem_of_mem_take hqo
  have h2 : q ∈ List.replicate (oc * ((ci - ct) * (h * w))) (0 : ℚ) :=
    List.mem_of_mem_drop (List.mem_of_mem_take h1)
  exact List.eq_of_mem_replicate h2

/-- A channel-count gap that is soft (`ct ≤ ci`) together with distinct
shapes on matching remaining dimensions is a strict gap. -/
lemma pad_strict_gap (sc tg : Tensor) (oc ci ct h w : Nat)
    (hts : sc.shape = [oc, ci, h, w]) (htg : tg.shape = [oc, ct, h, w])
    (hne : sc.shape ≠ tg.shape) (hle : ct ≤ ci) : ct < ci := by
  rcases Nat.lt_or_ge ct ci with hlt | hge
  · exact hlt
  · exfalso
    apply hne
    rw [hts, htg]
    have heq : ci = ct := by omega
    rw [heq]

/-- Inversion of the facade-level bootstrap. -/
lemma load_controlnet_ok_inv (ldm : ControlLDM) (res : ControlLDM × Finset String × Finset String)
    (h : load_controlnet_from_unet ldm = .ok res) :
    ∃ r, build_control_init (stateDict ldm.unet) (stateDict ldm.controlnet) = .ok r ∧
      res = ({ ldm with controlnet := { ldm.controlnet with params := updateParams r.1 ldm.controlnet.params } },
        r.2.1, r.2.2) := by
  unfold load_controlnet_from_unet at h
  split at h
  · cases h
  · rename_i r hr
    injection h with h1
    exact ⟨r, hr, h1.symm⟩

/-! ### Claim theorems: ControlNet bootstrapper -/

/-- **C1.** When `load_controlnet_from_unet` succeeds, every
control-branch key that exists in the denoiser's state with a different
shape receives the denoiser's tensor concatenated with zeros along
dimension 1: the result has exactly the control branch's declared shape,
its first `ct` channels (the denoiser's channel count) hold exactly the
denoiser's data, all remaining channels are zero, and the key is recorded
in `init_with_new_zero`. -/
theorem load_controlnet_from_unet_zero_pads (ldm : ControlLDM)
    (res : ControlLDM × Finset String × Finset String) (k : String) (sc tg : Tensor)
    (hok : load_controlnet_from_unet ldm = .ok res)
    (hnd : (paramNames ldm.controlnet).Nodup)
    (hmem : (k, sc) ∈ stateDict ldm.controlnet)
    (hu : lookupKey (stateDict ldm.unet) k = some tg)
    (hne : sc.shape ≠ tg.shape)
    (hwft : wf tg) :
    ∃ v ct ci, tg.shape[1]? = some ct ∧ sc.shape[1]? = some ci ∧
      getParam res.1.controlnet k = some v ∧
      v.shape = sc.shape ∧
      channel_slice v 0 ct = tg.data ∧
      (∀ q ∈ channel_slice v ct (ci - ct), q = 0) ∧
      k ∈ res.2.1 := by
  obtain ⟨r, hb, hres⟩ := load_controlnet_ok_inv ldm res hok
  subst hres
  have hnd' : ((stateDict ldm.controlnet).map Prod.fst).Nodup := by
    rw [stateDict_fst]; exact hnd
  obtain ⟨v, hpad, hlook, hzp⟩ :=
    build_control_init_pad_lookup (stateDict ldm.unet) k sc tg hu hne
      (stateDict ldm.controlnet) r hb hnd' hmem
  obtain ⟨oc, ci, ct, h, w, hts, htg, hle⟩ := (pad_channels_isOk sc tg).mp (by rw [hpad]; rfl)
  have hexp := pad_channels_ok oc ci ct h w sc tg hts htg hle
  rw [hpad] at hexp
  injection hexp with hv
  subst hv
  have hlen : tg.data.length = oc * (ct * (h * w)) := by
    have hp := hwft
    unfold wf at hp
    rw [htg] at hp
    simpa [Nat.mul_assoc] using hp
  have hkn : k ∈ ldm.controlnet.params.map (fun p => p.name) := by
    have hx : k ∈ (stateDict ldm.controlnet).map Prod.fst := List.mem_map_of_mem Prod.fst hmem
    rwa [stateDict_fst] at hx
  obtain ⟨old, hold⟩ := lookup_map_isSome ldm.controlnet.params k hkn
  refine ⟨⟨[oc, ct + (ci - ct), h, w],
    (List.range oc).flatMap (fun o => chunk tg.data (ct * (h * w)) o ++
      chunk (List.replicate (oc * ((ci - ct) * (h * w))) 0) ((ci - ct) * (h * w)) o), 0⟩,
    ct, ci, by simp [htg], by simp [hts], ?_, ?_, ?_, ?_, hzp⟩
  · show lookupKey ((updateParams r.1 ldm.controlnet.params).map (fun p => (p.name, p.val))) k = _
    rw [lookup_updateParams, hold, hlook]
    rfl
  · rw [hts]
    have : ct + (ci - ct) = ci := Nat.add_sub_cancel' hle
    rw [this]
  · exact channel_slice_pad_left oc ci ct h w tg.data hlen
  · exact channel_slice_pad_right oc ci ct h w tg.data hlen

/-- **C4.** `load_controlnet_from_unet` is all-or-nothing: it succeeds
exactly when every declared control-branch key is resolvable by one of
the three rules (fresh value, identical-shape copy, channel-only
zero-pad); on success every declared key holds a concrete value; on any
unresolvable key it returns an error and produces no state at all. -/
theorem load_controlnet_from_unet_all_or_nothing (ldm : ControlLDM) :
    (isOkB (load_controlnet_from_unet ldm) = true ↔
      ∀ kt ∈ stateDict ldm.controlnet, resolvable (stateDict ldm.unet) kt.1 kt.2) ∧
    (∀ res, load_controlnet_from_unet ldm = .ok res →
      ∀ k ∈ paramNames ldm.controlnet, ∃ v, getParam res.1.controlnet k = some v) := by
  constructor
  · constructor
    · intro hok
      cases hres : load_controlnet_from_unet ldm with
      | error e => rw [hres] at hok; simp [isOkB] at hok
      | ok res =>
        obtain ⟨r, hb, _⟩ := load_controlnet_ok_inv ldm res hres
        exact build_control_init_resolvable_of_ok _ _ r hb
    · intro H
      obtain ⟨r, hr⟩ :=
        build_control_init_ok_of_resolvable (stateDict ldm.unet) (stateDict ldm.controlnet) H
      unfold load_controlnet_from_unet
      rw [hr]
      rfl
  · intro res hres k hk
    obtain ⟨r, hb, hresq⟩ := load_controlnet_ok_inv ldm res hres
    subst hresq
    have hk' : k ∈ (stateDict ldm.controlnet).map Prod.fst := by
      rw [stateDict_fst]; exact hk
    obtain ⟨v, hv⟩ := build_control_init_keys _ _ r hb k hk'
    obtain ⟨old, hold⟩ := lookup_map_isSome ldm.controlnet.params k hk
    refine ⟨(lookupKey r.1 k).getD old, ?_⟩
    show lookupKey ((updateParams r.1 ldm.controlnet.params).map (fun p => (p.name, p.val))) k = _
    rw [lookup_updateParams, hold]

/-- **C7.** If every declared control-branch key exists in the denoiser's
state with identical shape, `load_controlnet_from_unet` succeeds with
both returned sets empty, and the control branch ends up holding exactly
the denoiser's values (same shape and data). -/
theorem load_controlnet_from_unet_identical (ldm : ControlLDM)
    (H : ∀ kt ∈ stateDict ldm.controlnet,
      ∃ tg, lookupKey (stateDict ldm.unet) kt.1 = some tg ∧ kt.2.shape = tg.shape) :
    ∃ ldm', load_controlnet_from_unet ldm = .ok (ldm', ∅, ∅) ∧
      ∀ kt ∈ stateDict ldm.controlnet,
        ∃ tg, lookupKey (stateDict ldm.unet) kt.1 = some tg ∧
          ∃ v, getParam ldm'.controlnet kt.1 = some v ∧ v.shape = tg.shape ∧ v.data = tg.data := by
  obtain ⟨i, hb, hv⟩ :=
    build_control_init_all_same (stateDict ldm.unet) (stateDict ldm.controlnet) H
  refine ⟨{ ldm with controlnet := { ldm.controlnet with params := updateParams i ldm.controlnet.params } },
    ?_, ?_⟩
  · unfold load_controlnet_from_unet
    rw [hb]
  · intro kt hm
    obtain ⟨tg, hu, hsh⟩ := H kt hm
    have hlk : lookupKey i kt.1 = some (clone tg) := by
      rw [hv kt hm, hu]
      rfl
    have hkn : kt.1 ∈ ldm.controlnet.params.map (fun p => p.name) := by
      have hx : kt.1 ∈ (stateDict ldm.controlnet).map Prod.fst := List.mem_map_of_mem Prod.fst hm
      rwa [stateDict_fst] at hx
    obtain ⟨old, hold⟩ := lookup_map_isSome ldm.controlnet.params kt.1 hkn
    refine ⟨tg, hu, clone tg, ?_, rfl, rfl⟩
    show lookupKey ((updateParams i ldm.controlnet.params).map (fun p => (p.name, p.val))) kt.1 = _
    rw [lookup_updateParams, hold, hlk]
    rfl

/-- **C10.** The zero-padding arm succeeds, among shape-differing pairs,
exactly under the precondition that both tensors are 4-D, agree in all
dimensions except dimension 1, and the control branch's channel count is
strictly larger; and a declared key violating the precondition makes the
whole bootstrap fail rather than produce a value. -/
theorem pad_channels_precondition :
    (∀ thisT target : Tensor, thisT.shape ≠ target.shape →
      (isOkB (pad_channels thisT target) = true ↔ pad_precondition thisT target)) ∧
    (∀ (ldm : ControlLDM) (k : String) (sc tg : Tensor),
      (k, sc) ∈ stateDict ldm.controlnet →
      lookupKey (stateDict ldm.unet) k = some tg →
      sc.shape ≠ tg.shape → ¬pad_precondition sc tg →
      isOkB (load_controlnet_from_unet ldm) = false) := by
  constructor
  · intro thisT target hne
    rw [pad_channels_isOk]
    constructor
    · rintro ⟨oc, ci, ct, h, w, hts, htg, hle⟩
      exact ⟨oc, ci, ct, h, w, hts, htg, pad_strict_gap thisT target oc ci ct h w hts htg hne hle⟩
    · rintro ⟨oc, ci, ct, h, w, hts, htg, hlt⟩
      exact ⟨oc, ci, ct, h, w, hts, htg, Nat.le_of_lt hlt⟩
  · intro ldm k sc tg hmem hu hne hnp
    cases hres : load_controlnet_from_unet ldm with
    | error e => rfl
    | ok res =>
      exfalso
      obtain ⟨r, hb, _⟩ := load_controlnet_ok_inv ldm res hres
      rcases build_control_init_resolvable_of_ok _ _ r hb (k, sc) hmem tg hu with hsh | hpadok
      · exact hne hsh
      · obtain ⟨oc, ci, ct, h, w, hts, htg, hle⟩ := (pad_channels_isOk sc tg).mp hpadok
        exact hnp ⟨oc, ci, ct, h, w, hts, htg,
          pad_strict_gap sc tg oc ci ct h w hts htg hne hle⟩

/-! ### Concrete witness data for the bootstrapper -/

instance instDecidableWf (t : Tensor) : Decidable (wf t) :=
  inferInstanceAs (Decidable (t.data.length = t.shape.prod))

instance instDecEqExcept {ε α : Type} [DecidableEq ε] [DecidableEq α] : DecidableEq (Except ε α) :=
  fun a b =>
    match a, b with
    | .ok x, .ok y =>
      if h : x = y then .isTrue (by rw [h]) else .isFalse (fun hc => by cases hc; exact h rfl)
    | .error x, .error y =>
      if h : x = y then .isTrue (by rw [h]) else .isFalse (fun hc => by cases hc; exact h rfl)
    | .ok _, .error _ => .isFalse (fun hc => by cases hc)
    | .error _, .ok _ => .isFalse (fun hc => by cases hc)

/-- A facade whose control branch declares one key with one extra input
channel relative to the denoiser. -/
def ldmPad : ControlLDM :=
  { unet := { params := [⟨"cin", ⟨[1, 1, 1, 1], [5], 0⟩, true⟩], training := false, trainPinned := false },
    vae := { params := [], training := false, trainPinned := false },
    clip := { params := [], training := false, trainPinned := false },
    controlnet := { params := [⟨"cin", ⟨[1, 2, 1, 1], [0, 0], 9⟩, true⟩], training := false, trainPinned := false },
    scale_factor := 1,
    control_scales := initial_control_scales }

/-- The expected result of bootstrapping `ldmPad`. -/
def resPad : ControlLDM × Finset String × Finset String :=
  ({ ldmPad with controlnet :=
      { params := [⟨"cin", ⟨[1, 2, 1, 1], [5, 0], 0⟩, true⟩], training := false, trainPinned := false } },
    {"cin"}, ∅)

/-- Witness for C1: one extra input channel is zero-padded. -/
theorem load_controlnet_from_unet_zero_pads_witness :
    ∃ v ct ci, (⟨[1, 1, 1, 1], [5], 0⟩ : Tensor).shape[1]? = some ct ∧
      (⟨[1, 2, 1, 1], [0, 0], 9⟩ : Tensor).shape[1]? = some ci ∧
      getParam resPad.1.controlnet "cin" = some v ∧
      v.shape = (⟨[1, 2, 1, 1], [0, 0], 9⟩ : Tensor).shape ∧
      channel_slice v 0 ct = (⟨[1, 1, 1, 1], [5], 0⟩ : Tensor).data ∧
      (∀ q ∈ channel_slice v ct (ci - ct), q = 0) ∧
      "cin" ∈ resPad.2.1 :=
  load_controlnet_from_unet_zero_pads ldmPad resPad "cin"
    ⟨[1, 2, 1, 1], [0, 0], 9⟩ ⟨[1, 1, 1, 1], [5], 0⟩
    (by decide) (by decide) (by decide) (by decide) (by decide) (by decide)

/-- Witness for C4: a successful bootstrap covers every declared key. -/
theorem load_controlnet_from_unet_all_or_nothing_witness :
    ∃ v, getParam resPad.1.controlnet "cin" = some v :=
  (load_controlnet_from_unet_all_or_nothing ldmPad).2 resPad (by decide) "cin" (by decide)

/-- Witness for C7: identical shapes bootstrap to an exact copy. -/
theorem load_controlnet_from_unet_identical_witness :
    ∃ ldm', load_controlnet_from_unet ldmW = .ok (ldm', ∅, ∅) ∧
      ∀ kt ∈ stateDict ldmW.controlnet,
        ∃ tg, lookupKey (stateDict ldmW.unet) kt.1 = some tg ∧
          ∃ v, getParam ldm'.controlnet kt.1 = some v ∧ v.shape = tg.shape ∧ v.data = tg.data :=
  load_controlnet_from_unet_identical ldmW (by
    intro kt hm
    have hkt : kt = ("w", (⟨[2], [0, 0], 8⟩ : Tensor)) := by
      simpa [ldmW, stateDict] using hm
    subst hkt
    exact ⟨⟨[2], [1, 2], 5⟩, by decide, by decide⟩)

/-- A facade whose control branch declares a key with FEWER channels than
the denoiser's tensor: the bootstrap must fail. -/
def ldmBad : ControlLDM :=
  { unet := { params := [⟨"b", ⟨[1, 2, 1, 1], [3, 4], 1⟩, true⟩], training := false, trainPinned := false },
    vae := { params := [], training := false, trainPinned := false },
    clip := { params := [], training := false, trainPinned := false },
    controlnet := { params := [⟨"b", ⟨[1, 1, 1, 1], [0], 2⟩, true⟩], training := false, trainPinned := false },
    scale_factor := 1,
    control_scales := initial_control_scales }

/-- Witness for C10: the padding arm at a one-channel gap, and a fatal
bootstrap when the control branch has fewer channels. -/
theorem pad_channels_precondition_witness :
    (isOkB (pad_channels (⟨[1, 2, 1, 1], [0, 0], 9⟩ : Tensor) (⟨[1, 1, 1, 1], [5], 0⟩ : Tensor)) = true ↔
      pad_precondition ⟨[1, 2, 1, 1], [0, 0], 9⟩ ⟨[1, 1, 1, 1], [5], 0⟩) ∧
    isOkB (load_controlnet_from_unet ldmBad) = false :=
  ⟨pad_channels_precondition.1 ⟨[1, 2, 1, 1], [0, 0], 9⟩ ⟨[1, 1, 1, 1], [5], 0⟩ (by decide),
   pad_channels_precondition.2 ldmBad "b" ⟨[1, 1, 1, 1], [0], 2⟩ ⟨[1, 2, 1, 1], [3, 4], 1⟩
     (by decide) (by decide) (by decide)
     (by
       rintro ⟨oc, ci, ct, h, w, hts, htg, hlt⟩
       simp only [Tensor.mk.injEq] at hts htg
       simp at hts htg
       omega)⟩

/-! ### Facade: `vae_encode` / `vae_decode`

The vae network (`self.vae.encode(x).sample()`, `self.vae.encode(x).mode()`,
`self.vae.decode`) and the tiled wrapper `make_tiled_fn` are external
collaborators of this module; they enter the embedding as opaque function
parameters. What belongs to `cldm.py` is the branching on `sample` and
`tiled` and the scaling at the boundary: `model(image) * scale_factor` on
encode, `model(z / scale_factor)` on decode. -/

/-- Elementwise tensor-times-scalar (`t * s`). -/
def smulT (t : Tensor) (s : ℚ) : Tensor :=
  { t with data := t.data.map (fun q => q * s) }

/-- Elementwise tensor-divided-by-scalar (`t / s`). -/
def sdivT (t : Tensor) (s : ℚ) : Tensor :=
  { t with data := t.data.map (fun q => q / s) }

/-- `ControlLDM.vae_encode`. -/
def vae_encode (encode_sample encode_mode : Tensor → Tensor)
    (tile_wrap : (Tensor → Tensor) → Tensor → Tensor)
    (scale_factor : ℚ) (sample tiled : Bool) (image : Tensor) : Tensor :=
  smulT ((if tiled then tile_wrap (if sample then encode_sample else encode_mode)
    else (if sample then encode_sample else encode_mode)) image) scale_factor

/-- `ControlLDM.vae_decode`. -/
def vae_decode (decode_fn : Tensor → Tensor)
    (tile_wrap : (Tensor → Tensor) → Tensor → Tensor)
    (scale_factor : ℚ) (tiled : Bool) (z : Tensor) : Tensor :=
  (if tiled then tile_wrap decode_fn else decode_fn) (sdivT z scale_factor)

lemma map_mul_div (s : ℚ) (hs : s ≠ 0) (l : List ℚ) :
    (l.map (fun q => q * s)).map (fun q => q / s) = l := by
  induction l with
  | nil => rfl
  | cons a t ih => simp [ih, mul_div_cancel_right₀ a hs]

lemma sdivT_smulT (t : Tensor) (s : ℚ) (hs : s ≠ 0) : sdivT (smulT t s) s = t := by
  cases t with
  | mk sh d tg => simp [sdivT, smulT, map_mul_div s hs]

/-- **C8.** `vae_encode` multiplies the chosen encoder model's raw output
by the scale factor, `vae_decode` divides its input by the same factor
before the chosen decoder model: composing the two cancels the scaling
exactly, leaving the decoder model applied to the encoder model's raw
output — whichever models (tiled or direct) were selected on each side. -/
theorem vae_decode_vae_encode (encode_sample encode_mode decode_fn : Tensor → Tensor)
    (tile_wrap_e tile_wrap_d : (Tensor → Tensor) → Tensor → Tensor)
    (s : ℚ) (sample tiled_e tiled_d : Bool) (x : Tensor) (hs : s ≠ 0) :
    vae_decode decode_fn tile_wrap_d s tiled_d
      (vae_encode encode_sample encode_mode tile_wrap_e s sample tiled_e x) =
    (if tiled_d then tile_wrap_d decode_fn else decode_fn)
      ((if tiled_e then tile_wrap_e (if sample then encode_sample else encode_mode)
        else (if sample then encode_sample else encode_mode)) x) := by
  unfold vae_decode vae_encode
  rw [sdivT_smulT _ s hs]

/-- Witness for C8 at the default scale factor 0.18215 and a concrete
latent. -/
theorem vae_decode_vae_encode_witness :
    vae_decode id (fun f => f) ((18215 : ℚ) / 100000) false
      (vae_encode id id (fun f => f) ((18215 : ℚ) / 100000) false false ⟨[1], [2], 0⟩) =
    (if false then (fun (f : Tensor → Tensor) => f) id else id)
      ((if false then (fun (f : Tensor → Tensor) => f) (if false then id else id)
        else (if false then (id : Tensor → Tensor) else id)) ⟨[1], [2], 0⟩) :=
  vae_decode_vae_encode id id id (fun f => f) (fun f => f) ((18215 : ℚ) / 100000)
    false false false ⟨[1], [2], 0⟩ (by norm_num)

end DiffBIR
